import Mathlib

/-!
Shallow embedding of `src/ip.py`, a script that fetches a line-oriented
list of IPv4 CIDR ranges, validates each line against a regular
expression, partitions the validated CIDRs into address groups of at
most 1000 members, and renders an address-group file plus an ACL rule
file for an iKuai router.

Strings are modelled as `List Char` (Python `str`), and the two output
files as lists of lines.  All definitions are executable.
-/

namespace IpTool

/-- Character class `[0-9]` of the regex (ASCII codes 48..57). -/
def isDig (c : Char) : Bool := decide (48 ≤ c.toNat ∧ c.toNat ≤ 57)

/-- Numeric value of a decimal digit character (`'0'` has code 48). -/
def charDigit (c : Char) : Nat := c.toNat - 48

/-- Decimal value of a digit string, most significant digit first
(used to state the numeric range of matched octets and masks). -/
def charsToNat (s : List Char) : Nat := s.foldl (fun a c => a * 10 + charDigit c) 0

/-- Fuelled core of the decimal renderer (Python `str(n)` / `f"{n}"`). -/
def natCharsGo : Nat → Nat → List Char → List Char
  | 0, _, acc => acc
  | fuel + 1, n, acc =>
      if n = 0 then acc else natCharsGo fuel (n / 10) (Nat.digitChar (n % 10) :: acc)

/-- Decimal rendering of a natural number, modelling Python `str(n)`. -/
def natChars (n : Nat) : List Char :=
  if n = 0 then ['0'] else natCharsGo n n []

theorem natCharsGo_append (fuel : Nat) :
    ∀ n acc, natCharsGo fuel n acc = natCharsGo fuel n [] ++ acc := by
  induction fuel with
  | zero => intro n acc; rfl
  | succ fuel ih =>
      intro n acc
      by_cases h : n = 0
      · simp [natCharsGo, h]
      · rw [natCharsGo, if_neg h, natCharsGo, if_neg h, ih (n / 10),
          ih (n / 10) [Nat.digitChar (n % 10)]]
        simp

theorem charDigit_digitChar {d : Nat} (h : d < 10) :
    charDigit (Nat.digitChar d) = d := by
  interval_cases d <;> rfl

theorem charsToNat_append_digit (xs : List Char) (c : Char) :
    charsToNat (xs ++ [c]) = charsToNat xs * 10 + charDigit c := by
  simp [charsToNat, List.foldl_append]

theorem charsToNat_natCharsGo :
    ∀ fuel n, n ≤ fuel → charsToNat (natCharsGo fuel n []) = n := by
  intro fuel
  induction fuel with
  | zero =>
      intro n hn
      interval_cases n
      rfl
  | succ fuel ih =>
      intro n hn
      by_cases h : n = 0
      · simp [natCharsGo, h, charsToNat]
      · rw [natCharsGo, if_neg h, natCharsGo_append, charsToNat_append_digit,
          ih (n / 10) (by omega), charDigit_digitChar (Nat.mod_lt n (by omega))]
        omega

theorem charsToNat_natChars (n : Nat) : charsToNat (natChars n) = n := by
  by_cases h : n = 0
  · subst h; rfl
  · rw [natChars, if_neg h]
    exact charsToNat_natCharsGo n n le_rfl

theorem natChars_injective : Function.Injective natChars := by
  intro a b h
  have := charsToNat_natChars a
  rw [h, charsToNat_natChars] at this
  omega

/-! ### Line splitting and stripping (`response.text.splitlines()`, `line.strip()`) -/

/-- Python `str.splitlines` restricted to the standard line endings
`"\n"`, `"\r\n"` and `"\r"` (the exotic unicode line boundaries never
occur in the claims).  A trailing line terminator does not produce a
final empty line, matching Python. -/
def splitLinesAux : List Char → List Char → List (List Char)
  | [], acc => [acc.reverse]
  | '\r' :: '\n' :: rest, acc =>
      acc.reverse :: (if rest = [] then [] else splitLinesAux rest [])
  | '\n' :: rest, acc =>
      acc.reverse :: (if rest = [] then [] else splitLinesAux rest [])
  | '\r' :: rest, acc =>
      acc.reverse :: (if rest = [] then [] else splitLinesAux rest [])
  | c :: rest, acc => splitLinesAux rest (c :: acc)

/-- Python `str.splitlines` (`"".splitlines() = []`). -/
def splitLines (s : List Char) : List (List Char) :=
  if s = [] then [] else splitLinesAux s []

/-- Python whitespace stripped by `str.strip()`:
space, tab, newline, carriage return, vertical tab, form feed. -/
def isPySpace (c : Char) : Bool :=
  decide (c.toNat = 32 ∨ c.toNat = 9 ∨ c.toNat = 10 ∨ c.toNat = 13 ∨ c.toNat = 11 ∨ c.toNat = 12)

/-- Python `line.strip()`: drop leading and trailing whitespace. -/
def pyStrip (s : List Char) : List Char :=
  ((s.dropWhile isPySpace).reverse.dropWhile isPySpace).reverse

/-! ### The CIDR regular expression

The source compiles
`^(?:(?:25[0-5]|2[0-4][0-9]|[01]?[0-9][0-9]?)\.){3}(?:25[0-5]|2[0-4][0-9]|[01]?[0-9][0-9]?)/([0-9]|[12][0-9]|3[0-2])$`
and applies it with `re.match` to stripped lines (which contain no
newline, so `$` is end-of-string).  `isOctet pre` decides whether the
string `pre` is in the language of the octet alternation
`25[0-5]|2[0-4][0-9]|[01]?[0-9][0-9]?`, case-split on the length of
`pre` (the optional `[01]?` and `[0-9]?` make a two-character match
possible exactly when both characters are digits). -/

/-- Language of the octet alternation `25[0-5]|2[0-4][0-9]|[01]?[0-9][0-9]?`. -/
def isOctet : List Char → Bool
  | [a] => isDig a
  | [a, b] => isDig a && isDig b
  | [a, b, c] =>
      (decide (a = '2') && decide (b = '5') && decide (48 ≤ c.toNat ∧ c.toNat ≤ 53)) ||
      (decide (a = '2') && decide (48 ≤ b.toNat ∧ b.toNat ≤ 52) && isDig c) ||
      ((decide (a = '0') || decide (a = '1')) && isDig b && isDig c)
  | _ => false

/-- Language of the mask alternation `[0-9]|[12][0-9]|3[0-2]`. -/
def isMask : List Char → Bool
  | [a] => isDig a
  | [a, b] =>
      ((decide (a = '1') || decide (a = '2')) && isDig b) ||
      (decide (a = '3') && decide (48 ≤ b.toNat ∧ b.toNat ≤ 50))
  | _ => false

/-- Nondeterministic regex step: some prefix of the input (of length 1,
2 or 3) matches the octet alternation and the continuation `k` accepts
the rest. -/
def tryOctet (k : List Char → Bool) : List Char → Bool
  | [] => false
  | [a] => isOctet [a] && k []
  | [a, b] => (isOctet [a] && k [b]) || (isOctet [a, b] && k [])
  | a :: b :: c :: rest =>
      (isOctet [a] && k (b :: c :: rest)) ||
      (isOctet [a, b] && k (c :: rest)) ||
      (isOctet [a, b, c] && k rest)

/-- Consume one literal character, then continue with `k`. -/
def expectChar (ch : Char) (k : List Char → Bool) : List Char → Bool
  | [] => false
  | c :: rest => decide (c = ch) && k rest

/-- Whole-string match of the source's CIDR regex: three octets each
followed by `'.'`, a fourth octet, `'/'`, and a mask filling the rest
of the string. -/
def cidr_match (s : List Char) : Bool :=
  tryOctet (expectChar '.'
    (tryOctet (expectChar '.'
      (tryOctet (expectChar '.'
        (tryOctet (expectChar '/' isMask))))))) s

/-! The spec's version of the grammar, for the refinement comparison of
claim C3.  It differs from the source in the third octet alternative:
the spec says `[0-9]{1,3}` where the source has `[01]?[0-9][0-9]?`. -/

/-- Modelled from the spec: language of the octet alternation
`25[0-5]|2[0-4][0-9]|[0-9]{1,3}` as written in the spec's grammar. -/
def isOctetSpec : List Char → Bool
  | [a] => isDig a
  | [a, b] => isDig a && isDig b
  | [a, b, c] =>
      (decide (a = '2') && decide (b = '5') && decide (48 ≤ c.toNat ∧ c.toNat ≤ 53)) ||
      (decide (a = '2') && decide (48 ≤ b.toNat ∧ b.toNat ≤ 52) && isDig c) ||
      (isDig a && isDig b && isDig c)
  | _ => false

/-- Modelled from the spec: nondeterministic step for the spec's octet
alternation. -/
def tryOctetSpec (k : List Char → Bool) : List Char → Bool
  | [] => false
  | [a] => isOctetSpec [a] && k []
  | [a, b] => (isOctetSpec [a] && k [b]) || (isOctetSpec [a, b] && k [])
  | a :: b :: c :: rest =>
      (isOctetSpec [a] && k (b :: c :: rest)) ||
      (isOctetSpec [a, b] && k (c :: rest)) ||
      (isOctetSpec [a, b, c] && k rest)

/-- Modelled from the spec: whole-string match of the grammar as the
spec describes it (octet alternation `25[0-5]|2[0-4][0-9]|[0-9]{1,3}`,
mask alternation `[0-9]|[12][0-9]|3[0-2]`). -/
def spec_cidr_match (s : List Char) : Bool :=
  tryOctetSpec (expectChar '.'
    (tryOctetSpec (expectChar '.'
      (tryOctetSpec (expectChar '.'
        (tryOctetSpec (expectChar '/' isMask))))))) s

/-! ### The extractor `fetch_domestic_cidrs` (parsing part)

The network call and exception handling are modelled in `main_run`
below; here `fetch_loop` embeds the `for line_num, line in
enumerate(lines, 1)` loop over `response.text.splitlines()`:
strip, skip blank and `#` lines silently, append matching lines to
`cidrs`, and report non-matching lines as skipped. -/

/-- Loop of `fetch_domestic_cidrs`, accumulating the `cidrs` list. -/
def fetch_loop : List (List Char) → List (List Char) → List (List Char)
  | [], cidrs => cidrs
  | line :: rest, cidrs =>
      if pyStrip line = [] ∨ (pyStrip line).head? = some '#' then
        fetch_loop rest cidrs
      else if cidr_match (pyStrip line) then
        fetch_loop rest (cidrs ++ [pyStrip line])
      else
        fetch_loop rest cidrs

/-- Validated-CIDR sequence extracted from the raw feed text. -/
def fetch_domestic_cidrs (text : List Char) : List (List Char) :=
  fetch_loop (splitLines text) []

/-- The `跳过无效行 {line_num}: {line}` diagnostics: 1-based line number
together with the stripped line, for each non-blank, non-comment line
that fails the regex. -/
def fetch_skipped_loop : Nat → List (List Char) → List (Nat × List Char)
  | _, [] => []
  | n, line :: rest =>
      if pyStrip line = [] ∨ (pyStrip line).head? = some '#' then
        fetch_skipped_loop (n + 1) rest
      else if cidr_match (pyStrip line) then
        fetch_skipped_loop (n + 1) rest
      else
        (n, pyStrip line) :: fetch_skipped_loop (n + 1) rest

/-- All malformed-line diagnostics emitted for a raw feed text. -/
def fetch_skipped (text : List Char) : List (Nat × List Char) :=
  fetch_skipped_loop 1 (splitLines text)

/-! ### The partitioner `generate_ip_groups` -/

/-- One emitted address group: `id` is `num_id` at the moment the line
is written, `seq` is `num_line` (the 1-based sequence number used in the
group name), `addr_pool` the members in input order. -/
structure Group where
  id : Nat
  seq : Nat
  addr_pool : List (List Char)
  deriving Repr, DecidableEq

/-- Python `",".join(xs)`. -/
def joinComma : List (List Char) → List Char
  | [] => []
  | [x] => x
  | x :: xs => x ++ ',' :: joinComma xs

/-- Python `s.split(',')` (accumulator holds the current field reversed). -/
def splitCommaAux : List Char → List Char → List (List Char)
  | [], acc => [acc.reverse]
  | c :: rest, acc =>
      if c = ',' then acc.reverse :: splitCommaAux rest []
      else splitCommaAux rest (c :: acc)

/-- Python `s.split(',')`. -/
def splitComma (s : List Char) : List (List Char) :=
  splitCommaAux s []

/-- The `for cidr in cidrs` loop of `generate_ip_groups`: append the
CIDR to `addr_pool`; once the pool holds 1000 entries write it out as a
group and reset `num_id`, `num_line` and the pool; after the loop, write
the non-empty leftover pool as one final group. -/
def generate_ip_groups_loop :
    List (List Char) → Nat → Nat → List (List Char) → List Group
  | [], num_id, num_line, addr_pool =>
      if addr_pool = [] then [] else [⟨num_id, num_line, addr_pool⟩]
  | c :: rest, num_id, num_line, addr_pool =>
      if (addr_pool ++ [c]).length < 1000 then
        generate_ip_groups_loop rest num_id num_line (addr_pool ++ [c])
      else
        ⟨num_id, num_line, addr_pool ++ [c]⟩ ::
          generate_ip_groups_loop rest (num_id + 1) (num_line + 1) []

/-- The groups written by `generate_ip_groups` (`num_id` starts at 60,
`num_line` at 1). -/
def generate_ip_groups (cidrs : List (List Char)) : List Group :=
  generate_ip_groups_loop cidrs 60 1 []

/-- Group name `f"国内IP-{num_line}"`. -/
def groupName (n : Nat) : List Char :=
  "国内IP-".data ++ natChars n

/-- One line of the group file:
`f"id={num_id} comment= type=0 group_name=国内IP-{num_line} addr_pool={','.join(addr_pool)}"`. -/
def group_line (g : Group) : List Char :=
  "id=".data ++ natChars g.id ++ " comment= type=0 group_name=".data ++
    groupName g.seq ++ " addr_pool=".data ++ joinComma g.addr_pool

/-- Group file name `f"domestic_ikuai_ipgroup-{data_date}.txt"`. -/
def group_filename (data_date : List Char) : List Char :=
  "domestic_ikuai_ipgroup-".data ++ data_date ++ ".txt".data

/-- `total_groups = num_line - 1`: `num_line` starts at 1 and is
incremented exactly once per written group line, so the returned count
is the number of emitted groups. -/
def total_groups (cidrs : List (List Char)) : Nat :=
  (generate_ip_groups cidrs).length

/-- Full result of `generate_ip_groups`: the file name it writes, the
lines of that file, and the returned group count.  The run date is used
only in the file name. -/
def generate_ip_groups_run (cidrs : List (List Char)) (data_date : List Char) :
    List Char × List (List Char) × Nat :=
  (group_filename data_date, (generate_ip_groups cidrs).map group_line, total_groups cidrs)

/-! ### The ACL renderer `generate_acl_rules` -/

/-- ACL file name `f"domestic_ikuai_acl-{data_date}.txt"`. -/
def acl_filename (data_date : List Char) : List Char :=
  "domestic_ikuai_acl-".data ++ data_date ++ ".txt".data

/-- `",".join([f"国内IP-{i}" for i in range(1, num_groups + 1)])`. -/
def src_addr_str (num_groups : Nat) : List Char :=
  joinComma ((List.range' 1 num_groups).map groupName)

/-- The single ACL rule line assembled by `generate_acl_rules`. -/
def acl_rule (num_groups : Nat) : List Char :=
  "id=60 enabled=yes comment=允许国内IP访问 action=accept dir=forward ctdir=1 iinterface=any ointerface=any src_addr=".data ++
    src_addr_str num_groups ++
    " dst_addr= src6_addr= dst6_addr= src6_mode=0 dst6_mode=0 src6_suffix= dst6_suffix= src6_mac= dst6_mac= protocol=any src_port= dst_port= week=1234567 time=00:00-23:59 ip_type=4".data

/-- Lines of the ACL file: exactly one `f.write(acl_rule + '\n')`. -/
def acl_file_lines (num_groups : Nat) : List (List Char) :=
  [acl_rule num_groups]

/-- Full result of `generate_acl_rules`: file name and lines. -/
def generate_acl_rules_run (num_groups : Nat) (data_date : List Char) :
    List Char × List (List Char) :=
  (acl_filename data_date, acl_file_lines num_groups)

/-! ### `main` -/

/-- Outcome of the `requests.get` call: the body text on HTTP success,
or a failure (network error, timeout, non-2xx status, parse error), in
which case `fetch_domestic_cidrs` returns `[]` from its `except` arms. -/
inductive FetchOutcome where
  | success (text : List Char)
  | failure
  deriving Repr

/-- The `cidrs` list `main` receives from `fetch_domestic_cidrs`. -/
def fetched_cidrs : FetchOutcome → List (List Char)
  | .success t => fetch_domestic_cidrs t
  | .failure => []

/-- Which files a run writes: each is `none` (not written) or the pair
of file name and file lines. -/
structure RunResult where
  group_file : Option (List Char × List (List Char))
  acl_file : Option (List Char × List (List Char))
  deriving Repr, DecidableEq

/-- Control flow of `main`: abort before writing anything when `cidrs`
is empty; abort before writing the ACL file when `num_groups == 0`. -/
def main_run (fo : FetchOutcome) (data_date : List Char) : RunResult :=
  if fetched_cidrs fo = [] then ⟨none, none⟩
  else
    let r := generate_ip_groups_run (fetched_cidrs fo) data_date
    if r.2.2 = 0 then ⟨some (r.1, r.2.1), none⟩
    else ⟨some (r.1, r.2.1), some (generate_acl_rules_run r.2.2 data_date)⟩

/-! ### The run-date token `get_data_date`

`datetime.utcnow() + timedelta(days=1)` advances the UTC calendar date
by exactly one day (Python datetimes have no leap seconds; the time of
day is unchanged and `strftime("%Y%m%d")` ignores it), so the addition
is modelled at date level by `addOneDay` on the proleptic Gregorian
calendar that `datetime` uses. -/

/-- A calendar date. -/
structure Date where
  year : Nat
  month : Nat
  day : Nat
  deriving Repr, DecidableEq

/-- Gregorian leap-year rule. -/
def isLeapYear (y : Nat) : Bool :=
  decide ((y % 4 = 0 ∧ ¬ y % 100 = 0) ∨ y % 400 = 0)

/-- Length of a month in the proleptic Gregorian calendar. -/
def daysInMonth (y m : Nat) : Nat :=
  if m = 2 then (if isLeapYear y then 29 else 28)
  else if m = 4 ∨ m = 6 ∨ m = 9 ∨ m = 11 then 30
  else 31

/-- A date with in-range month and day. -/
def Date.valid (d : Date) : Prop :=
  1 ≤ d.month ∧ d.month ≤ 12 ∧ 1 ≤ d.day ∧ d.day ≤ daysInMonth d.year d.month

/-- `datetime + timedelta(days=1)` at date level. -/
def addOneDay (d : Date) : Date :=
  if d.day < daysInMonth d.year d.month then ⟨d.year, d.month, d.day + 1⟩
  else if d.month < 12 then ⟨d.year, d.month + 1, 1⟩
  else ⟨d.year + 1, 1, 1⟩

/-- The numeric value whose decimal numeral is the `%Y%m%d` rendering
(year, two-digit month, two-digit day in decimal place value). -/
def formatYMD (d : Date) : Nat :=
  d.year * 10000 + d.month * 100 + d.day

/-- `strftime("%Y%m%d")` as a character string. -/
def strftimeYMD (d : Date) : List Char :=
  natChars (formatYMD d)

/-- `get_data_date()`: the `%Y%m%d` token of the UTC date one day after
the clock reading `now`. -/
def get_data_date (now : Date) : List Char :=
  strftimeYMD (addOneDay now)

/-! ### Proof-side characterizations (not part of the source): chunking
and group construction in closed form. -/

/-- Chunks of at most 1000 elements: full chunks of exactly 1000, then
a final chunk of 1 to 1000 leftover elements; `[]` has no chunks. -/
def chunkList (l : List (List Char)) : List (List (List Char)) :=
  if l.length ≤ 1000 then (if l = [] then [] else [l])
  else l.take 1000 :: chunkList (l.drop 1000)
termination_by l.length
decreasing_by simp; omega

/-- Attach ids and sequence numbers `i, i+1, ...` and `n, n+1, ...` to
a list of chunks. -/
def mkGroups : Nat → Nat → List (List (List Char)) → List Group
  | _, _, [] => []
  | i, n, c :: rest => ⟨i, n, c⟩ :: mkGroups (i + 1) (n + 1) rest

/-! ### Lemmas about chunking and the partitioner loop -/

theorem chunkList_nil : chunkList [] = [] := by
  unfold chunkList
  simp

theorem chunkList_small {l : List (List Char)} (h0 : l ≠ []) (h : l.length ≤ 1000) :
    chunkList l = [l] := by
  unfold chunkList
  rw [if_pos h, if_neg h0]

theorem chunkList_big {l : List (List Char)} (h : 1000 < l.length) :
    chunkList l = l.take 1000 :: chunkList (l.drop 1000) := by
  conv_lhs => unfold chunkList
  rw [if_neg (by omega)]

theorem chunkList_eq_nil_iff {l : List (List Char)} : chunkList l = [] ↔ l = [] := by
  constructor
  · intro h
    by_cases hlen : l.length ≤ 1000
    · by_cases h0 : l = []
      · exact h0
      · rw [chunkList_small h0 hlen] at h
        exact absurd h (by simp)
    · rw [chunkList_big (by omega)] at h
      exact absurd h (by simp)
  · intro h
    subst h
    exact chunkList_nil

theorem chunkList_cons_of_full {pool rest : List (List Char)} (h : pool.length = 1000) :
    chunkList (pool ++ rest) = pool :: chunkList rest := by
  by_cases hr : rest = []
  · subst hr
    rw [List.append_nil, chunkList_small (by intro h0; simp [h0] at h) (by omega), chunkList_nil]
  · have hrlen : 0 < rest.length := List.length_pos.mpr hr
    rw [chunkList_big (by simp [List.length_append]; omega),
      List.take_left' h, List.drop_left' h]

theorem chunkList_flatten (l : List (List Char)) : (chunkList l).flatten = l := by
  by_cases hlen : l.length ≤ 1000
  · by_cases h0 : l = []
    · subst h0; simp [chunkList_nil]
    · rw [chunkList_small h0 hlen]
      simp
  · rw [chunkList_big (by omega), List.flatten_cons,
      chunkList_flatten (l.drop 1000), List.take_append_drop]
termination_by l.length
decreasing_by simp; omega

theorem chunkList_mem {l : List (List Char)} :
    ∀ c ∈ chunkList l, c ≠ [] ∧ c.length ≤ 1000 := by
  intro c hc
  by_cases hlen : l.length ≤ 1000
  · by_cases h0 : l = []
    · subst h0; rw [chunkList_nil] at hc; simp at hc
    · rw [chunkList_small h0 hlen] at hc
      simp at hc
      subst hc
      exact ⟨h0, hlen⟩
  · rw [chunkList_big (by omega)] at hc
    rcases List.mem_cons.mp hc with h | h
    · subst h
      constructor
      · have : (l.take 1000).length = 1000 := by simp; omega
        intro hnil
        simp [hnil] at this
      · simp
    · exact chunkList_mem c h
termination_by l.length
decreasing_by simp; omega

theorem chunkList_dropLast {l : List (List Char)} :
    ∀ c ∈ (chunkList l).dropLast, c.length = 1000 := by
  intro c hc
  by_cases hlen : l.length ≤ 1000
  · by_cases h0 : l = []
    · subst h0; rw [chunkList_nil] at hc; simp at hc
    · rw [chunkList_small h0 hlen] at hc
      simp at hc
  · rw [chunkList_big (by omega)] at hc
    have hdrop : chunkList (l.drop 1000) ≠ [] := by
      rw [Ne, chunkList_eq_nil_iff]
      intro h
      have := congrArg List.length h
      simp at this
      omega
    rw [List.dropLast_cons_of_ne_nil hdrop] at hc
    rcases List.mem_cons.mp hc with h | h
    · subst h
      simp
      omega
    · exact chunkList_dropLast c h
termination_by l.length
decreasing_by simp; omega

theorem mkGroups_map_addr_pool (cs : List (List (List Char))) :
    ∀ i n, (mkGroups i n cs).map Group.addr_pool = cs := by
  induction cs with
  | nil => intro i n; rfl
  | cons c rest ih => intro i n; simp [mkGroups, ih]

theorem mkGroups_length (cs : List (List (List Char))) :
    ∀ i n, (mkGroups i n cs).length = cs.length := by
  induction cs with
  | nil => intro i n; rfl
  | cons c rest ih => intro i n; simp [mkGroups, ih]

theorem mkGroups_map_id (cs : List (List (List Char))) :
    ∀ i n, (mkGroups i n cs).map Group.id = List.range' i cs.length := by
  induction cs with
  | nil => intro i n; rfl
  | cons c rest ih =>
      intro i n
      rw [List.length_cons, List.range'_succ]
      simp [mkGroups, ih]

theorem mkGroups_map_seq (cs : List (List (List Char))) :
    ∀ i n, (mkGroups i n cs).map Group.seq = List.range' n cs.length := by
  induction cs with
  | nil => intro i n; rfl
  | cons c rest ih =>
      intro i n
      rw [List.length_cons, List.range'_succ]
      simp [mkGroups, ih]

theorem generate_ip_groups_loop_eq :
    ∀ (rest pool : List (List Char)) (i n : Nat),
      pool.length < 1000 →
      generate_ip_groups_loop rest i n pool = mkGroups i n (chunkList (pool ++ rest)) := by
  intro rest
  induction rest with
  | nil =>
      intro pool i n hp
      rw [List.append_nil]
      by_cases h0 : pool = []
      · subst h0
        simp [generate_ip_groups_loop, chunkList_nil, mkGroups]
      · rw [generate_ip_groups_loop, if_neg h0, chunkList_small h0 (by omega)]
        rfl
  | cons c rest ih =>
      intro pool i n hp
      rw [generate_ip_groups_loop]
      by_cases h : (pool ++ [c]).length < 1000
      · rw [if_pos h, ih _ _ _ h]
        congr 1
        congr 1
        simp
      · rw [if_neg h]
        have hlen : (pool ++ [c]).length = 1000 := by
          simp at h ⊢
          omega
        have hsplit : pool ++ c :: rest = (pool ++ [c]) ++ rest := by simp
        rw [ih [] (i + 1) (n + 1) (by simp), hsplit, chunkList_cons_of_full hlen, mkGroups]
        simp

theorem generate_ip_groups_eq (cidrs : List (List Char)) :
    generate_ip_groups cidrs = mkGroups 60 1 (chunkList cidrs) := by
  rw [generate_ip_groups, generate_ip_groups_loop_eq cidrs [] 60 1 (by simp), List.nil_append]

/-! ### Lemmas about comma joining and splitting -/

theorem splitCommaAux_no_comma :
    ∀ (m acc : List Char), (∀ c ∈ m, c ≠ ',') →
      splitCommaAux m acc = [acc.reverse ++ m] := by
  intro m
  induction m with
  | nil => intro acc _; simp [splitCommaAux]
  | cons c rest ih =>
      intro acc hm
      rw [splitCommaAux, if_neg (hm c (List.mem_cons_self c rest)),
        ih (c :: acc) (fun x hx => hm x (List.mem_cons_of_mem c hx))]
      simp

theorem splitCommaAux_append :
    ∀ (m : List Char) (acc rest : List Char), (∀ c ∈ m, c ≠ ',') →
      splitCommaAux (m ++ ',' :: rest) acc = (acc.reverse ++ m) :: splitCommaAux rest [] := by
  intro m
  induction m with
  | nil => intro acc rest _; simp [splitCommaAux]
  | cons c m' ih =>
      intro acc rest hm
      rw [List.cons_append, splitCommaAux, if_neg (hm c (List.mem_cons_self c m')),
        ih (c :: acc) rest (fun x hx => hm x (List.mem_cons_of_mem c hx))]
      simp

theorem splitComma_joinComma :
    ∀ pool : List (List Char), pool ≠ [] → (∀ m ∈ pool, ∀ c ∈ m, c ≠ ',') →
      splitComma (joinComma pool) = pool := by
  intro pool
  induction pool with
  | nil => intro h _; exact absurd rfl h
  | cons x rest ih =>
      intro _ hp
      match rest with
      | [] =>
          have hj : joinComma [x] = x := rfl
          rw [hj, splitComma,
            splitCommaAux_no_comma x [] (hp x (List.mem_cons_self x []))]
          rfl
      | y :: rest' =>
          have hj : joinComma (x :: y :: rest') = x ++ ',' :: joinComma (y :: rest') := rfl
          rw [hj, splitComma,
            splitCommaAux_append x [] (joinComma (y :: rest'))
              (hp x (List.mem_cons_self x (y :: rest')))]
          rw [List.reverse_nil, List.nil_append]
          have := ih (List.cons_ne_nil y rest') (fun m hm => hp m (List.mem_cons_of_mem x hm))
          rw [splitComma] at this
          rw [this]

/-! ### Characterizations of the extractor loops -/

theorem fetch_loop_eq :
    ∀ (lines acc : List (List Char)),
      fetch_loop lines acc = acc ++ (lines.map pyStrip).filter
        (fun l => decide (¬(l = [] ∨ l.head? = some '#')) && cidr_match l) := by
  intro lines
  induction lines with
  | nil => intro acc; simp [fetch_loop]
  | cons line rest ih =>
      intro acc
      rw [fetch_loop]
      simp only [List.map_cons, List.filter_cons]
      by_cases h1 : pyStrip line = [] ∨ (pyStrip line).head? = some '#'
      · have hcond : (decide (¬(pyStrip line = [] ∨ (pyStrip line).head? = some '#')) &&
            cidr_match (pyStrip line)) = false := by simp [h1]
        rw [if_pos h1, ih, hcond]
        simp
      · by_cases h2 : cidr_match (pyStrip line) = true
        · have hcond : (decide (¬(pyStrip line = [] ∨ (pyStrip line).head? = some '#')) &&
              cidr_match (pyStrip line)) = true := by simp [h1, h2]
          rw [if_neg h1, if_pos h2, ih, hcond]
          simp
        · have h2' : cidr_match (pyStrip line) = false := by simpa using h2
          have hcond : (decide (¬(pyStrip line = [] ∨ (pyStrip line).head? = some '#')) &&
              cidr_match (pyStrip line)) = false := by simp [h2']
          rw [if_neg h1, if_neg h2, ih, hcond]
          simp

theorem fetch_domestic_cidrs_eq (text : List Char) :
    fetch_domestic_cidrs text = ((splitLines text).map pyStrip).filter
      (fun l => decide (¬(l = [] ∨ l.head? = some '#')) && cidr_match l) := by
  rw [fetch_domestic_cidrs, fetch_loop_eq, List.nil_append]

theorem fetch_domestic_cidrs_mem {text : List Char} :
    ∀ s ∈ fetch_domestic_cidrs text,
      ¬(s = [] ∨ s.head? = some '#') ∧ cidr_match s = true := by
  intro s hs
  rw [fetch_domestic_cidrs_eq] at hs
  have := List.of_mem_filter hs
  simp only [Bool.and_eq_true, decide_eq_true_eq] at this
  exact this

theorem fetch_skipped_loop_mem :
    ∀ (lines : List (List Char)) (n : Nat) (p : Nat × List Char),
      p ∈ fetch_skipped_loop n lines →
      ¬(p.2 = [] ∨ p.2.head? = some '#') ∧ cidr_match p.2 = false := by
  intro lines
  induction lines with
  | nil => intro n p hp; simp [fetch_skipped_loop] at hp
  | cons line rest ih =>
      intro n p hp
      rw [fetch_skipped_loop] at hp
      by_cases h1 : pyStrip line = [] ∨ (pyStrip line).head? = some '#'
      · rw [if_pos h1] at hp
        exact ih (n + 1) p hp
      · rw [if_neg h1] at hp
        by_cases h2 : cidr_match (pyStrip line)
        · rw [if_pos h2] at hp
          exact ih (n + 1) p hp
        · rw [if_neg h2] at hp
          rcases List.mem_cons.mp hp with h | h
          · subst h
            exact ⟨h1, by simpa using h2⟩
          · exact ih (n + 1) p h

theorem fetch_skipped_mem {text : List Char} :
    ∀ p ∈ fetch_skipped text,
      ¬(p.2 = [] ∨ p.2.head? = some '#') ∧ cidr_match p.2 = false :=
  fun p hp => fetch_skipped_loop_mem (splitLines text) 1 p hp

/-! ### Decomposition of a successful regex match -/

theorem expectChar_true {ch : Char} {k : List Char → Bool} {s : List Char}
    (h : expectChar ch k s = true) : ∃ s', s = ch :: s' ∧ k s' = true := by
  match s with
  | [] => simp [expectChar] at h
  | c :: rest =>
      simp only [expectChar, Bool.and_eq_true, decide_eq_true_eq] at h
      exact ⟨rest, by rw [h.1], h.2⟩

theorem tryOctet_true {k : List Char → Bool} {s : List Char}
    (h : tryOctet k s = true) :
    ∃ pre suf, s = pre ++ suf ∧ isOctet pre = true ∧ k suf = true := by
  match s with
  | [] => simp [tryOctet] at h
  | [a] =>
      simp only [tryOctet, Bool.and_eq_true] at h
      exact ⟨[a], [], rfl, h.1, h.2⟩
  | [a, b] =>
      simp only [tryOctet, Bool.or_eq_true, Bool.and_eq_true] at h
      rcases h with h | h
      · exact ⟨[a], [b], rfl, h.1, h.2⟩
      · exact ⟨[a, b], [], rfl, h.1, h.2⟩
  | a :: b :: c :: rest =>
      simp only [tryOctet, Bool.or_eq_true, Bool.and_eq_true] at h
      rcases h with (h | h) | h
      · exact ⟨[a], b :: c :: rest, rfl, h.1, h.2⟩
      · exact ⟨[a, b], c :: rest, rfl, h.1, h.2⟩
      · exact ⟨[a, b, c], rest, rfl, h.1, h.2⟩

theorem cidr_match_true {s : List Char} (h : cidr_match s = true) :
    ∃ o1 o2 o3 o4 m,
      s = o1 ++ '.' :: (o2 ++ '.' :: (o3 ++ '.' :: (o4 ++ '/' :: m))) ∧
      isOctet o1 = true ∧ isOctet o2 = true ∧ isOctet o3 = true ∧
      isOctet o4 = true ∧ isMask m = true := by
  rw [cidr_match] at h
  obtain ⟨o1, s1, hs1, ho1, h1⟩ := tryOctet_true h
  obtain ⟨s1', hd1, h1'⟩ := expectChar_true h1
  obtain ⟨o2, s2, hs2, ho2, h2⟩ := tryOctet_true h1'
  obtain ⟨s2', hd2, h2'⟩ := expectChar_true h2
  obtain ⟨o3, s3, hs3, ho3, h3⟩ := tryOctet_true h2'
  obtain ⟨s3', hd3, h3'⟩ := expectChar_true h3
  obtain ⟨o4, s4, hs4, ho4, h4⟩ := tryOctet_true h3'
  obtain ⟨m, hd4, hm⟩ := expectChar_true h4
  refine ⟨o1, o2, o3, o4, m, ?_, ho1, ho2, ho3, ho4, hm⟩
  rw [hs1, hd1, hs2, hd2, hs3, hd3, hs4, hd4]

/-! ### Numeric ranges of matched octets and masks -/

theorem isDig_bounds {c : Char} (h : isDig c = true) :
    48 ≤ c.toNat ∧ c.toNat ≤ 57 := by
  simpa [isDig] using h

theorem isDig_ne_comma {c : Char} (h : isDig c = true) : c ≠ ',' := by
  intro hc
  subst hc
  exact absurd h (by decide)

theorem isOctet_facts {o : List Char} (h : isOctet o = true) :
    o ≠ [] ∧ (∀ c ∈ o, isDig c = true) ∧ charsToNat o ≤ 255 := by
  match o with
  | [a] =>
      refine ⟨by simp, ?_, ?_⟩
      · intro c hc
        simp only [List.mem_singleton] at hc
        subst hc
        exact h
      · have := isDig_bounds h
        simp only [charsToNat, charDigit, List.foldl]
        omega
  | [a, b] =>
      simp only [isOctet, Bool.and_eq_true] at h
      have ha := isDig_bounds h.1
      have hb := isDig_bounds h.2
      refine ⟨by simp, ?_, ?_⟩
      · intro c hc
        simp only [List.mem_cons, List.mem_singleton, List.not_mem_nil, or_false] at hc
        rcases hc with hc | hc <;> subst hc
        · exact h.1
        · exact h.2
      · simp only [charsToNat, charDigit, List.foldl]
        omega
  | [a, b, c] =>
      simp only [isOctet, Bool.or_eq_true, Bool.and_eq_true, decide_eq_true_eq] at h
      have h2 : ('2' : Char).toNat = 50 := rfl
      have h5 : ('5' : Char).toNat = 53 := rfl
      have h0 : ('0' : Char).toNat = 48 := rfl
      have h1 : ('1' : Char).toNat = 49 := rfl
      have hdig : ∀ x : Char, 48 ≤ x.toNat → x.toNat ≤ 57 → isDig x = true := by
        intro x hx1 hx2
        simp [isDig]
        omega
      rcases h with (⟨⟨ha, hb⟩, hc1, hc2⟩ | ⟨⟨ha, hb1, hb2⟩, hc⟩) | ⟨⟨ha, hb⟩, hc⟩
      · have hat : a.toNat = 50 := by rw [ha, h2]
        have hbt : b.toNat = 53 := by rw [hb, h5]
        refine ⟨by simp, ?_, ?_⟩
        · intro x hx
          simp only [List.mem_cons, List.mem_singleton, List.not_mem_nil, or_false] at hx
          rcases hx with hx | hx | hx <;> rw [hx]
          · rw [ha]; decide
          · rw [hb]; decide
          · exact hdig c (by omega) (by omega)
        · simp only [charsToNat, charDigit, List.foldl]
          omega
      · have hat : a.toNat = 50 := by rw [ha, h2]
        have hcb := isDig_bounds hc
        refine ⟨by simp, ?_, ?_⟩
        · intro x hx
          simp only [List.mem_cons, List.mem_singleton, List.not_mem_nil, or_false] at hx
          rcases hx with hx | hx | hx <;> rw [hx]
          · rw [ha]; decide
          · exact hdig b (by omega) (by omega)
          · exact hc
        · simp only [charsToNat, charDigit, List.foldl]
          omega
      · have hbb := isDig_bounds hb
        have hcb := isDig_bounds hc
        have hab : a.toNat = 48 ∨ a.toNat = 49 := by
          rcases ha with ha | ha
          · rw [ha, h0]; exact Or.inl rfl
          · rw [ha, h1]; exact Or.inr rfl
        refine ⟨by simp, ?_, ?_⟩
        · intro x hx
          simp only [List.mem_cons, List.mem_singleton, List.not_mem_nil, or_false] at hx
          rcases hx with hx | hx | hx <;> rw [hx]
          · exact hdig a (by omega) (by omega)
          · exact hb
          · exact hc
        · simp only [charsToNat, charDigit, List.foldl]
          omega

theorem isMask_facts {m : List Char} (h : isMask m = true) :
    m ≠ [] ∧ (∀ c ∈ m, isDig c = true) ∧ charsToNat m ≤ 32 := by
  match m with
  | [a] =>
      have := isDig_bounds h
      refine ⟨by simp, ?_, ?_⟩
      · intro c hc
        simp only [List.mem_singleton] at hc
        subst hc
        exact h
      · simp only [charsToNat, charDigit, List.foldl]
        omega
  | [a, b] =>
      simp only [isMask, Bool.or_eq_true, Bool.and_eq_true, decide_eq_true_eq] at h
      have h1 : ('1' : Char).toNat = 49 := rfl
      have h2 : ('2' : Char).toNat = 50 := rfl
      have h3 : ('3' : Char).toNat = 51 := rfl
      have hdig : ∀ x : Char, 48 ≤ x.toNat → x.toNat ≤ 57 → isDig x = true := by
        intro x hx1 hx2
        simp [isDig]
        omega
      rcases h with ⟨ha, hb⟩ | ⟨ha, hb1, hb2⟩
      · have hbb := isDig_bounds hb
        have hab : a.toNat = 49 ∨ a.toNat = 50 := by
          rcases ha with ha | ha
          · rw [ha, h1]; exact Or.inl rfl
          · rw [ha, h2]; exact Or.inr rfl
        refine ⟨by simp, ?_, ?_⟩
        · intro x hx
          simp only [List.mem_cons, List.mem_singleton, List.not_mem_nil, or_false] at hx
          rcases hx with hx | hx <;> rw [hx]
          · exact hdig a (by omega) (by omega)
          · exact hb
        · simp only [charsToNat, charDigit, List.foldl]
          omega
      · have hat : a.toNat = 51 := by rw [ha, h3]
        refine ⟨by simp, ?_, ?_⟩
        · intro x hx
          simp only [List.mem_cons, List.mem_singleton, List.not_mem_nil, or_false] at hx
          rcases hx with hx | hx <;> rw [hx]
          · rw [ha]; decide
          · exact hdig b (by omega) (by omega)
        · simp only [charsToNat, charDigit, List.foldl]
          omega

/-- A matched CIDR string is non-empty, starts with a digit, and
contains no comma (so comma-joining pools is unambiguous). -/
theorem cidr_match_facts {s : List Char} (h : cidr_match s = true) :
    s ≠ [] ∧ (∃ a t, s = a :: t ∧ isDig a = true) ∧ (∀ c ∈ s, c ≠ ',') := by
  obtain ⟨o1, o2, o3, o4, m, hs, ho1, ho2, ho3, ho4, hm⟩ := cidr_match_true h
  obtain ⟨hne1, hd1, _⟩ := isOctet_facts ho1
  obtain ⟨_, hd2, _⟩ := isOctet_facts ho2
  obtain ⟨_, hd3, _⟩ := isOctet_facts ho3
  obtain ⟨_, hd4, _⟩ := isOctet_facts ho4
  obtain ⟨_, hdm, _⟩ := isMask_facts hm
  refine ⟨?_, ?_, ?_⟩
  · rw [hs]
    rcases o1 with _ | ⟨a, t⟩
    · exact absurd rfl hne1
    · simp
  · rcases o1 with _ | ⟨a, t⟩
    · exact absurd rfl hne1
    · exact ⟨a, t ++ '.' :: (o2 ++ '.' :: (o3 ++ '.' :: (o4 ++ '/' :: m))), by simp [hs],
        hd1 a (List.mem_cons_self a t)⟩
  · intro c hc
    rw [hs] at hc
    simp only [List.mem_append, List.mem_cons] at hc
    rcases hc with hc | hc | hc | hc | hc | hc | hc | hc | hc
    · exact isDig_ne_comma (hd1 c hc)
    · subst hc; decide
    · exact isDig_ne_comma (hd2 c hc)
    · subst hc; decide
    · exact isDig_ne_comma (hd3 c hc)
    · subst hc; decide
    · exact isDig_ne_comma (hd4 c hc)
    · subst hc; decide
    · exact isDig_ne_comma (hdm c hc)

/-! ### Group names -/

theorem groupName_injective : Function.Injective groupName := by
  intro a b h
  exact natChars_injective (List.append_cancel_left h)

theorem mkGroups_mem_addr_pool :
    ∀ (cs : List (List (List Char))) (i n : Nat) (g : Group),
      g ∈ mkGroups i n cs → g.addr_pool ∈ cs := by
  intro cs
  induction cs with
  | nil => intro i n g hg; simp [mkGroups] at hg
  | cons c rest ih =>
      intro i n g hg
      rw [mkGroups] at hg
      rcases List.mem_cons.mp hg with h | h
      · subst h
        exact List.mem_cons_self c rest
      · exact List.mem_cons_of_mem c (ih (i + 1) (n + 1) g h)

theorem mkGroups_dropLast_mem :
    ∀ (cs : List (List (List Char))) (i n : Nat) (g : Group),
      g ∈ (mkGroups i n cs).dropLast → g.addr_pool ∈ cs.dropLast := by
  intro cs
  induction cs with
  | nil => intro i n g hg; simp [mkGroups] at hg
  | cons c rest ih =>
      intro i n g hg
      rw [mkGroups] at hg
      match rest with
      | [] => simp [mkGroups] at hg
      | d :: rest' =>
          have hne : mkGroups (i + 1) (n + 1) (d :: rest') ≠ [] := by
            rw [mkGroups]
            exact List.cons_ne_nil _ _
          rw [List.dropLast_cons_of_ne_nil hne] at hg
          rw [List.dropLast_cons_of_ne_nil (List.cons_ne_nil d rest')]
          rcases List.mem_cons.mp hg with h | h
          · subst h
            exact List.mem_cons_self c _
          · exact List.mem_cons_of_mem c (ih (i + 1) (n + 1) g h)

/-- C1: partitioning emits groups of exactly 1000 members each except
possibly the last, the last group has between 1 and 1000 members, no
zero-member group is emitted, an empty input yields zero groups; an
input of exactly 2500 CIDRs yields 3 groups of sizes [1000, 1000, 500]
with ids [60, 61, 62] and names 国内IP-1, 国内IP-2, 国内IP-3; an input
of exactly 1000 CIDRs yields exactly one group of size 1000. -/
theorem c1_partition_shape (cidrs : List (List Char)) :
    (∀ g ∈ (generate_ip_groups cidrs).dropLast, g.addr_pool.length = 1000) ∧
    (∀ g ∈ generate_ip_groups cidrs, 1 ≤ g.addr_pool.length ∧ g.addr_pool.length ≤ 1000) ∧
    (cidrs = [] → generate_ip_groups cidrs = []) ∧
    (cidrs.length = 2500 →
      (generate_ip_groups cidrs).map (fun g => g.addr_pool.length) = [1000, 1000, 500] ∧
      (generate_ip_groups cidrs).map Group.id = [60, 61, 62] ∧
      (generate_ip_groups cidrs).map (fun g => groupName g.seq) =
        [("国内IP-1").data, ("国内IP-2").data, ("国内IP-3").data]) ∧
    (cidrs.length = 1000 →
      (generate_ip_groups cidrs).length = 1 ∧
      (generate_ip_groups cidrs).map (fun g => g.addr_pool.length) = [1000]) := by
  refine ⟨?_, ?_, ?_, ?_, ?_⟩
  · intro g hg
    rw [generate_ip_groups_eq] at hg
    exact chunkList_dropLast g.addr_pool (mkGroups_dropLast_mem _ _ _ _ hg)
  · intro g hg
    rw [generate_ip_groups_eq] at hg
    have := chunkList_mem g.addr_pool (mkGroups_mem_addr_pool _ _ _ _ hg)
    exact ⟨List.length_pos.mpr this.1, this.2⟩
  · intro h
    subst h
    rw [generate_ip_groups_eq, chunkList_nil]
    rfl
  · intro hlen
    have h1 : chunkList cidrs = cidrs.take 1000 :: chunkList (cidrs.drop 1000) :=
      chunkList_big (by omega)
    have hd1 : (cidrs.drop 1000).length = 1500 := by simp [hlen]
    have h2 : chunkList (cidrs.drop 1000) =
        (cidrs.drop 1000).take 1000 :: chunkList ((cidrs.drop 1000).drop 1000) :=
      chunkList_big (by omega)
    have hd2 : ((cidrs.drop 1000).drop 1000).length = 500 := by simp [hlen]
    have h3 : chunkList ((cidrs.drop 1000).drop 1000) = [(cidrs.drop 1000).drop 1000] :=
      chunkList_small (by intro h0; rw [h0] at hd2; simp at hd2) (by omega)
    rw [generate_ip_groups_eq, h1, h2, h3]
    refine ⟨?_, rfl, ?_⟩
    · simp only [mkGroups, List.map_cons, List.map_nil]
      rw [List.length_take, List.length_take, hd2]
      simp [hlen, hd1]
    · have e1 : groupName 1 = ("国内IP-1").data := by decide
      have e2 : groupName 2 = ("国内IP-2").data := by decide
      have e3 : groupName 3 = ("国内IP-3").data := by decide
      simp only [mkGroups, List.map_cons, List.map_nil]
      rw [e1, e2, e3]
  · intro hlen
    have h1 : chunkList cidrs = [cidrs] :=
      chunkList_small (by intro h0; rw [h0] at hlen; simp at hlen) (by omega)
    rw [generate_ip_groups_eq, h1]
    exact ⟨rfl, by simp [mkGroups, hlen]⟩

theorem c1_partition_shape_witness :
    (List.replicate 2500 (("1.2.3.4/24").data)).length = 2500 ∧
    ((generate_ip_groups (List.replicate 2500 (("1.2.3.4/24").data))).map
        (fun g => g.addr_pool.length) = [1000, 1000, 500] ∧
      (generate_ip_groups (List.replicate 2500 (("1.2.3.4/24").data))).map Group.id =
        [60, 61, 62] ∧
      (generate_ip_groups (List.replicate 2500 (("1.2.3.4/24").data))).map
        (fun g => groupName g.seq) =
        [("国内IP-1").data, ("国内IP-2").data, ("国内IP-3").data]) :=
  ⟨by rw [List.length_replicate],
    (c1_partition_shape (List.replicate 2500 (("1.2.3.4/24").data))).2.2.2.1
      (by rw [List.length_replicate])⟩

/-- C2: concatenating the `addr_pool` fields of all emitted groups in
sequence order and splitting on `','` reproduces the original validated
CIDR sequence exactly. -/
theorem c2_round_trip (cidrs : List (List Char))
    (hv : ∀ c ∈ cidrs, cidr_match c = true) :
    ((generate_ip_groups cidrs).map
      (fun g => splitComma (joinComma g.addr_pool))).flatten = cidrs := by
  have key : ∀ g ∈ generate_ip_groups cidrs,
      splitComma (joinComma g.addr_pool) = g.addr_pool := by
    intro g hg
    rw [generate_ip_groups_eq] at hg
    have hpool : g.addr_pool ∈ chunkList cidrs := mkGroups_mem_addr_pool _ _ _ _ hg
    apply splitComma_joinComma _ (chunkList_mem _ hpool).1
    intro m hm
    have hmc : m ∈ cidrs := by
      rw [← chunkList_flatten cidrs]
      exact List.mem_flatten.mpr ⟨g.addr_pool, hpool, hm⟩
    exact (cidr_match_facts (hv m hmc)).2.2
  have hmap : (generate_ip_groups cidrs).map (fun g => splitComma (joinComma g.addr_pool)) =
      (generate_ip_groups cidrs).map Group.addr_pool :=
    List.map_congr_left key
  rw [hmap, generate_ip_groups_eq, mkGroups_map_addr_pool, chunkList_flatten]

theorem c2_round_trip_witness :
    ((generate_ip_groups [("1.2.3.4/24").data]).map
      (fun g => splitComma (joinComma g.addr_pool))).flatten = [("1.2.3.4/24").data] :=
  c2_round_trip [("1.2.3.4/24").data] (by decide)

/-- C3 counterexample: the claim fixes the octet alternation as
`25[0-5]|2[0-4][0-9]|[0-9]{1,3}` and asserts that a non-comment,
non-blank trimmed line is appended iff it matches that grammar.  The
line `999.1.1.1/24` is non-blank, non-comment, matches that grammar
(`999` matches `[0-9]{1,3}`, with numeric value 999 > 255), yet the
extractor does not append it: the code's third alternative is
`[01]?[0-9][0-9]?`, which rejects `999`. -/
theorem c3_validation_grammar_counterexample :
    spec_cidr_match (("999.1.1.1/24").data) = true ∧
    splitLines (("999.1.1.1/24").data) = [("999.1.1.1/24").data] ∧
    pyStrip (("999.1.1.1/24").data) = ("999.1.1.1/24").data ∧
    ¬(("999.1.1.1/24").data = [] ∨ (("999.1.1.1/24").data).head? = some '#') ∧
    fetch_domestic_cidrs (("999.1.1.1/24").data) = [] ∧
    isOctetSpec (("999").data) = true ∧ charsToNat (("999").data) = 999 := by
  decide

/-- C3 (amended): the code's octet alternation is
`25[0-5]|2[0-4][0-9]|[01]?[0-9][0-9]?` rather than `[0-9]{1,3}`.  With
that grammar the claim holds: the extractor equals the filter of the
stripped lines by "non-blank, non-comment and matches the grammar"
(appended verbatim, in input order, iff matching), and every extracted
string decomposes as `A.B.C.D/M` with each octet value in [0,255] and
the mask value in [0,32]. -/
theorem c3_validation_grammar (text : List Char) :
    fetch_domestic_cidrs text = ((splitLines text).map pyStrip).filter
      (fun l => decide (¬(l = [] ∨ l.head? = some '#')) && cidr_match l) ∧
    ∀ s ∈ fetch_domestic_cidrs text,
      cidr_match s = true ∧
      ∃ o1 o2 o3 o4 m,
        s = o1 ++ '.' :: (o2 ++ '.' :: (o3 ++ '.' :: (o4 ++ '/' :: m))) ∧
        isOctet o1 = true ∧ isOctet o2 = true ∧ isOctet o3 = true ∧
        isOctet o4 = true ∧ isMask m = true ∧
        charsToNat o1 ≤ 255 ∧ charsToNat o2 ≤ 255 ∧ charsToNat o3 ≤ 255 ∧
        charsToNat o4 ≤ 255 ∧ charsToNat m ≤ 32 := by
  refine ⟨fetch_domestic_cidrs_eq text, ?_⟩
  intro s hs
  have hm := (fetch_domestic_cidrs_mem s hs).2
  obtain ⟨o1, o2, o3, o4, m, hdec, h1, h2, h3, h4, h5⟩ := cidr_match_true hm
  exact ⟨hm, o1, o2, o3, o4, m, hdec, h1, h2, h3, h4, h5,
    (isOctet_facts h1).2.2, (isOctet_facts h2).2.2, (isOctet_facts h3).2.2,
    (isOctet_facts h4).2.2, (isMask_facts h5).2.2⟩

theorem c3_validation_grammar_witness :
    cidr_match (("1.2.3.4/24").data) = true ∧
    ∃ o1 o2 o3 o4 m,
      ("1.2.3.4/24").data = o1 ++ '.' :: (o2 ++ '.' :: (o3 ++ '.' :: (o4 ++ '/' :: m))) ∧
      isOctet o1 = true ∧ isOctet o2 = true ∧ isOctet o3 = true ∧
      isOctet o4 = true ∧ isMask m = true ∧
      charsToNat o1 ≤ 255 ∧ charsToNat o2 ≤ 255 ∧ charsToNat o3 ≤ 255 ∧
      charsToNat o4 ≤ 255 ∧ charsToNat m ≤ 32 :=
  (c3_validation_grammar (("1.2.3.4/24").data)).2 (("1.2.3.4/24").data) (by decide)

/-- C4: on an input whose lines are `1.2.3.4/24`, `999.1.1.1/24`,
`10.0.0.0/33`, `# comment` and a blank line, the extractor returns
exactly `["1.2.3.4/24"]`. -/
theorem c4_worked_example :
    splitLines (("1.2.3.4/24\n999.1.1.1/24\n10.0.0.0/33\n# comment\n\n").data) =
      [("1.2.3.4/24").data, ("999.1.1.1/24").data, ("10.0.0.0/33").data,
        ("# comment").data, []] ∧
    fetch_domestic_cidrs (("1.2.3.4/24\n999.1.1.1/24\n10.0.0.0/33\n# comment\n\n").data) =
      [("1.2.3.4/24").data] := by
  decide

/-- C5: a line whose trimmed form is empty (which covers blank and
whitespace-only lines) or begins with `'#'` is excluded from the
extractor's output and is never reported as a malformed (skipped)
line. -/
theorem c5_comments_blank (text : List Char) :
    ∀ line ∈ splitLines text,
      (pyStrip line = [] ∨ (pyStrip line).head? = some '#') →
      pyStrip line ∉ fetch_domestic_cidrs text ∧
      ∀ n, (n, pyStrip line) ∉ fetch_skipped text := by
  intro line _ hcond
  constructor
  · intro hmem
    exact absurd hcond (fetch_domestic_cidrs_mem _ hmem).1
  · intro n hmem
    exact absurd hcond (fetch_skipped_mem _ hmem).1

theorem c5_comments_blank_witness :
    pyStrip (("# c").data) ∉ fetch_domestic_cidrs (("# c\n1.2.3.4/24").data) ∧
    ∀ n, (n, pyStrip (("# c").data)) ∉ fetch_skipped (("# c\n1.2.3.4/24").data) :=
  c5_comments_blank (("# c\n1.2.3.4/24").data) (("# c").data) (by decide) (by decide)

theorem generate_ip_groups_map_seq (cidrs : List (List Char)) :
    (generate_ip_groups cidrs).map Group.seq = List.range' 1 (total_groups cidrs) := by
  rw [total_groups, generate_ip_groups_eq, mkGroups_map_seq, mkGroups_length]

/-- C6: for a run with a positive group count N, the ACL file consists
of exactly one line; its `src_addr` field is the comma-joined list of
the N group names 国内IP-1 through 国内IP-N in sequence order, which has
no duplicates and is exactly the list of names assigned in the group
file. -/
theorem c6_acl_src_addr (cidrs : List (List Char))
    (_hpos : 0 < total_groups cidrs) :
    acl_file_lines (total_groups cidrs) = [acl_rule (total_groups cidrs)] ∧
    acl_rule (total_groups cidrs) =
      ("id=60 enabled=yes comment=允许国内IP访问 action=accept dir=forward ctdir=1 iinterface=any ointerface=any src_addr=").data ++
        src_addr_str (total_groups cidrs) ++
        (" dst_addr= src6_addr= dst6_addr= src6_mode=0 dst6_mode=0 src6_suffix= dst6_suffix= src6_mac= dst6_mac= protocol=any src_port= dst_port= week=1234567 time=00:00-23:59 ip_type=4").data ∧
    src_addr_str (total_groups cidrs) =
      joinComma ((List.range' 1 (total_groups cidrs)).map groupName) ∧
    (List.range' 1 (total_groups cidrs)).map groupName =
      (generate_ip_groups cidrs).map (fun g => groupName g.seq) ∧
    ((List.range' 1 (total_groups cidrs)).map groupName).Nodup := by
  refine ⟨rfl, rfl, rfl, ?_, ?_⟩
  · rw [← generate_ip_groups_map_seq, List.map_map]
    rfl
  · exact List.Nodup.map groupName_injective (List.nodup_range' 1 (total_groups cidrs))

theorem c6_acl_src_addr_witness :
    acl_file_lines (total_groups [("1.2.3.4/24").data]) =
      [acl_rule (total_groups [("1.2.3.4/24").data])] ∧
    acl_rule (total_groups [("1.2.3.4/24").data]) =
      ("id=60 enabled=yes comment=允许国内IP访问 action=accept dir=forward ctdir=1 iinterface=any ointerface=any src_addr=").data ++
        src_addr_str (total_groups [("1.2.3.4/24").data]) ++
        (" dst_addr= src6_addr= dst6_addr= src6_mode=0 dst6_mode=0 src6_suffix= dst6_suffix= src6_mac= dst6_mac= protocol=any src_port= dst_port= week=1234567 time=00:00-23:59 ip_type=4").data ∧
    src_addr_str (total_groups [("1.2.3.4/24").data]) =
      joinComma ((List.range' 1 (total_groups [("1.2.3.4/24").data])).map groupName) ∧
    (List.range' 1 (total_groups [("1.2.3.4/24").data])).map groupName =
      (generate_ip_groups [("1.2.3.4/24").data]).map (fun g => groupName g.seq) ∧
    ((List.range' 1 (total_groups [("1.2.3.4/24").data])).map groupName).Nodup :=
  c6_acl_src_addr [("1.2.3.4/24").data] (by decide)

/-- C7: if the fetch fails or validation yields zero CIDRs, the run
terminates early writing neither output file; if partitioning yields
zero groups, the run terminates early without writing the ACL file; the
ACL file is written only when CIDRs and groups are both non-zero (and
`main_run` is a total function, so an empty input aborts rather than
crashes). -/
theorem c7_empty_input (fo : FetchOutcome) (d : List Char) :
    (fetched_cidrs fo = [] → main_run fo d = ⟨none, none⟩) ∧
    (total_groups (fetched_cidrs fo) = 0 → (main_run fo d).acl_file = none) ∧
    ((main_run fo d).acl_file ≠ none →
      fetched_cidrs fo ≠ [] ∧ total_groups (fetched_cidrs fo) ≠ 0) := by
  refine ⟨?_, ?_, ?_⟩
  · intro h
    rw [main_run, if_pos h]
  · intro h
    by_cases hc : fetched_cidrs fo = []
    · rw [main_run, if_pos hc]
    · rw [main_run, if_neg hc]
      simp [generate_ip_groups_run, h]
  · intro h
    by_cases hc : fetched_cidrs fo = []
    · rw [main_run, if_pos hc] at h
      exact absurd rfl h
    · refine ⟨hc, ?_⟩
      intro ht
      rw [main_run, if_neg hc] at h
      simp [generate_ip_groups_run, ht] at h

theorem c7_empty_input_witness :
    main_run .failure (("20261013").data) = ⟨none, none⟩ :=
  (c7_empty_input .failure (("20261013").data)).1 rfl

/-- C8: the run date parameterizes only the two output file names: for
any two dates, the group-file lines (hence every group's id, sequence
number and name), the returned group count and the ACL-file lines are
identical, and each file name is its fixed prefix plus the date token
plus `.txt`. -/
theorem c8_date_noninterference (cidrs : List (List Char)) (d1 d2 : List Char) :
    (generate_ip_groups_run cidrs d1).2 = (generate_ip_groups_run cidrs d2).2 ∧
    (generate_acl_rules_run (total_groups cidrs) d1).2 =
      (generate_acl_rules_run (total_groups cidrs) d2).2 ∧
    (generate_ip_groups_run cidrs d1).1 =
      ("domestic_ikuai_ipgroup-").data ++ d1 ++ (".txt").data ∧
    (generate_acl_rules_run (total_groups cidrs) d1).1 =
      ("domestic_ikuai_acl-").data ++ d1 ++ (".txt").data :=
  ⟨rfl, rfl, rfl, rfl⟩

/-- C9: the single ACL rule is written with the literal id 60, the same
constant used as the first address group's id: whenever at least one
group exists, the first group's id is 60 and the ACL line starts with
`id=60 `. -/
theorem c9_shared_id_60 (cidrs : List (List Char)) (h : cidrs ≠ []) :
    (∃ g rest, generate_ip_groups cidrs = g :: rest ∧ g.id = 60) ∧
    ∃ tail, acl_rule (total_groups cidrs) = ("id=60 ").data ++ tail := by
  constructor
  · rw [generate_ip_groups_eq]
    have hch : chunkList cidrs ≠ [] := by
      rw [Ne, chunkList_eq_nil_iff]
      exact h
    match hc : chunkList cidrs with
    | [] => exact absurd hc hch
    | c :: cs => exact ⟨⟨60, 1, c⟩, mkGroups 61 2 cs, rfl, rfl⟩
  · refine ⟨("enabled=yes comment=允许国内IP访问 action=accept dir=forward ctdir=1 iinterface=any ointerface=any src_addr=").data ++
      src_addr_str (total_groups cidrs) ++
      (" dst_addr= src6_addr= dst6_addr= src6_mode=0 dst6_mode=0 src6_suffix= dst6_suffix= src6_mac= dst6_mac= protocol=any src_port= dst_port= week=1234567 time=00:00-23:59 ip_type=4").data, ?_⟩
    rw [acl_rule]
    have hsplit : ("id=60 enabled=yes comment=允许国内IP访问 action=accept dir=forward ctdir=1 iinterface=any ointerface=any src_addr=").data =
        ("id=60 ").data ++
        ("enabled=yes comment=允许国内IP访问 action=accept dir=forward ctdir=1 iinterface=any ointerface=any src_addr=").data := by
      decide
    rw [hsplit]
    simp [List.append_assoc]

theorem c9_shared_id_60_witness :
    (∃ g rest, generate_ip_groups [("1.2.3.4/24").data] = g :: rest ∧ g.id = 60) ∧
    ∃ tail, acl_rule (total_groups [("1.2.3.4/24").data]) = ("id=60 ").data ++ tail :=
  c9_shared_id_60 [("1.2.3.4/24").data] (by decide)

theorem daysInMonth_le_31 (y m : Nat) : daysInMonth y m ≤ 31 := by
  rw [daysInMonth]
  split
  · split <;> omega
  · split <;> omega

/-- C10: the run-date token is not the `%Y%m%d` rendering of the
current UTC date but of the UTC calendar date one day ahead: for every
valid clock date `now`, the token equals the rendering of
`addOneDay now` and differs from the rendering of `now` itself. -/
theorem c10_token_one_day_ahead (now : Date) (hv : now.valid) :
    get_data_date now = strftimeYMD (addOneDay now) ∧
    get_data_date now ≠ strftimeYMD now := by
  refine ⟨rfl, ?_⟩
  intro h
  rw [get_data_date, strftimeYMD, strftimeYMD] at h
  have heq : formatYMD (addOneDay now) = formatYMD now := natChars_injective h
  obtain ⟨hm1, hm2, hd1, hd2⟩ := hv
  have hdm := daysInMonth_le_31 now.year now.month
  by_cases h1 : now.day < daysInMonth now.year now.month
  · rw [addOneDay, if_pos h1] at heq
    simp [formatYMD] at heq
  · by_cases h2 : now.month < 12
    · rw [addOneDay, if_neg h1, if_pos h2] at heq
      simp [formatYMD] at heq
      omega
    · rw [addOneDay, if_neg h1, if_neg h2] at heq
      simp [formatYMD] at heq
      omega

theorem c10_token_one_day_ahead_witness :
    get_data_date ⟨2026, 10, 12⟩ = strftimeYMD (addOneDay ⟨2026, 10, 12⟩) ∧
    get_data_date ⟨2026, 10, 12⟩ ≠ strftimeYMD ⟨2026, 10, 12⟩ :=
  c10_token_one_day_ahead ⟨2026, 10, 12⟩ (by unfold Date.valid; decide)

end IpTool
